import Mathlib

/-!
Verification development for the send-telegram-bot game core.

The definitions below are a shallow embedding of the ReScript sources:
`Game` models src/Game.res (the session state machine and surge check),
`Sendtag` and `Command` model the tag-normalization functions in
src/Sendtag.res and src/Command.res, and `Index` models the pure state
transitions of the orchestrator in src/Index.res (pending-join batching,
join handling and the in-memory stores).  JavaScript numbers used as
timestamps and the `Math.random()` draw are modelled as rationals;
ReScript `int`/`bigint` values are modelled as `Int`; strings are
modelled as `List Char`.
-/

namespace SendBot

/-- A game participant, mirroring `type player` in src/Game.res. -/
structure player where
  sendtag : List Char
  userId : Int
  callbackQueryId : Int
deriving DecidableEq

/-- Payload of the `Collecting` state constructor in src/Game.res. -/
structure collectingData where
  players : List player
  winningNumber : Int
  amount : Int
  baseAmount : Int
  surgeAmount : Int
  master : Int
  maxPlayers : Int
  messageId : Int
deriving DecidableEq

/-- Payload of the `Completed` state constructor in src/Game.res. -/
structure completedData where
  players : List player
  winningNumber : Int
  amount : Int
  baseAmount : Int
  surgeAmount : Int
  master : Int
  winner : player
deriving DecidableEq

/-- `type cancelReason` in src/Game.res.  The admin user is modelled by id. -/
inductive cancelReason where
  | AdminCancelled (user : Int)
  | MasterCancelled
  | Expired
  | Error (msg : List Char)
deriving DecidableEq

/-- `type state` in src/Game.res. -/
inductive state where
  | Initializing
  | Collecting (c : collectingData)
  | Completed (c : completedData)
  | Cancelled (r : cancelReason)
deriving DecidableEq

/-- `type surge` in src/Game.res: per-chat surge tracker state. -/
structure surge where
  updatedAt : ℚ
  multiplier : Int
deriving DecidableEq

/-- `type pendingJoin` in src/Game.res: per-chat join buffer.
The timer handle is modelled by an integer id. -/
structure pendingJoin where
  players : List player
  timeout : Option Int
deriving DecidableEq

/-- `type error` in src/Game.res. -/
inductive gameError where
  | NoActiveGame
  | NoSendTag
  | AlreadyJoined
  | GameFull
  | InternalError (msg : List Char)
deriving DecidableEq

/-- `type joinResult` in src/Game.res. -/
inductive joinResult where
  | Success (position : Int)
  | Error (e : gameError)
deriving DecidableEq

namespace Game

/-- `minPlayers` constant in src/Game.res. -/
def minPlayers : Int := 3

/-- `maxPlayers` constant in src/Game.res. -/
def maxPlayersLimit : Int := 20

/-- `minGuessAmount` constant in src/Game.res. -/
def minGuessAmount : Int := 50

/-- `surgeCooldown` constant in src/Game.res (milliseconds). -/
def surgeCooldown : Int := 60000

/-- `surgeIncrease` constant in src/Game.res. -/
def surgeIncrease : Int := 50

/-- `isSurgeActive` in src/Game.res; `Date.now()` is passed explicitly. -/
def isSurgeActive (now : ℚ) (s : surge) : Bool :=
  decide (now - s.updatedAt < (surgeCooldown : ℚ))

/-- JavaScript `array[i]` access: `none` for a negative or out-of-range index. -/
def arrayGet (l : List player) (i : Int) : Option player :=
  if 0 ≤ i then l.get? i.toNat else none

/-- JavaScript `Array.prototype.indexOf`: first index of `p`, `-1` if absent. -/
def jsIndexOf : List player → player → Int
  | [], _ => -1
  | a :: rest, p =>
      if a = p then 0
      else
        let r := jsIndexOf rest p
        if r = -1 then -1 else r + 1

/-- The random winning-number draw inside `createGame` in src/Game.res:
`Math.floor(Math.random() * maxPlayers) + 1` with the random float
modelled by the rational `r`. -/
def winningNumberDraw (r : ℚ) (maxPlayers : Int) : Int :=
  ⌊r * (maxPlayers : ℚ)⌋ + 1

/-- `createGame` in src/Game.res.  The `Math.random()` result is the
parameter `r` and `Date.now()` is the parameter `now`; the master user is
modelled by id.  Returns the `(chatId, state)` pair exactly as the source. -/
def createGame (chatId : Int) (master : Int) (maxPlayers : Int) (baseAmount : Int)
    (surgeOpt : Option surge) (r : ℚ) (now : ℚ) : Int × state :=
  let winningNumber := winningNumberDraw r maxPlayers
  let surgeAmount :=
    match surgeOpt with
    | some s => if isSurgeActive now s then s.multiplier * surgeIncrease else 0
    | none => 0
  let totalAmount := baseAmount + surgeAmount
  (chatId,
   .Collecting
     { players := []
       winningNumber := winningNumber
       amount := totalAmount
       baseAmount := baseAmount
       surgeAmount := surgeAmount
       master := master
       maxPlayers := maxPlayers
       messageId := 0 })

/-- `addPlayer` in src/Game.res.  The `failwith("Winner index out of bounds")`
branch is modelled by `none`; every non-raising path returns
`some (newState, position)`. -/
def addPlayer (st : state) (p : player) : Option (state × Int) :=
  match st with
  | .Collecting c =>
      let players := c.players ++ [p]
      if (players.length : Int) ≥ c.maxPlayers then
        match arrayGet players (c.winningNumber - 1) with
        | some w =>
            some (.Completed
              { players := players
                winningNumber := c.winningNumber
                amount := c.amount
                baseAmount := c.baseAmount
                surgeAmount := c.surgeAmount
                master := c.master
                winner := w },
              jsIndexOf players p + 1)
        | none => none
      else
        some (.Collecting { c with players := players }, jsIndexOf players p + 1)
  | st => some (st, -1)

/-- `cancelGame` in src/Game.res. -/
def cancelGame (st : state) (reason : cancelReason) : state :=
  match st with
  | .Collecting _ => .Cancelled reason
  | st => st

/-- Iterated `addPlayer`, threading the returned session forward; `none`
as soon as one call raises. -/
def runAdds (st : state) : List player → Option state
  | [] => some st
  | p :: rest =>
      match addPlayer st p with
      | some (st', _) => runAdds st' rest
      | none => none

/-- Number of admitted players recorded in a state. -/
def playersCount : state → Int
  | .Collecting c => (c.players.length : Int)
  | .Completed c => (c.players.length : Int)
  | _ => 0

/-- The players list recorded in a state. -/
def playersOf : state → List player
  | .Collecting c => c.players
  | .Completed c => c.players
  | _ => []

/-- The winner recorded in a `Completed` state. -/
def winnerOf : state → Option player
  | .Completed c => some c.winner
  | _ => none

/-- The winning number recorded in a state. -/
def winningNumOf : state → Option Int
  | .Collecting c => some c.winningNumber
  | .Completed c => some c.winningNumber
  | _ => none

/-- The surge component of the stake recorded in a state. -/
def surgeAmountOf : state → Int
  | .Collecting c => c.surgeAmount
  | .Completed c => c.surgeAmount
  | _ => 0

/-- The total stake recorded in a state. -/
def amountOf : state → Int
  | .Collecting c => c.amount
  | .Completed c => c.amount
  | _ => 0

/-- Whether a state is `Collecting`. -/
def isCollecting : state → Bool
  | .Collecting _ => true
  | _ => false

/-- Whether a state is `Completed`. -/
def isCompleted : state → Bool
  | .Completed _ => true
  | _ => false

end Game

/-- Characters kept by the `[^A-Za-z0-9_]` removal regexes used across
src/Sendtag.res, src/Command.res and src/Index.res. -/
def allowedChar (c : Char) : Bool :=
  (decide (65 ≤ c.toNat) && decide (c.toNat ≤ 90)) ||
  (decide (97 ≤ c.toNat) && decide (c.toNat ≤ 122)) ||
  (decide (48 ≤ c.toNat) && decide (c.toNat ≤ 57)) ||
  decide (c.toNat = 95)

/-- JavaScript `String.prototype.trim` whitespace test (the characters that
can actually appear here). -/
def isJsWhitespace (c : Char) : Bool :=
  c == ' ' || c == '\t' || c == '\n' || c == '\r' ||
  decide (c.toNat = 11) || decide (c.toNat = 12) || decide (c.toNat = 160)

/-- JavaScript `String.prototype.trim`. -/
def trim (l : List Char) : List Char :=
  ((l.dropWhile isJsWhitespace).reverse.dropWhile isJsWhitespace).reverse

/-- A chat user as consumed by the handlers: `first_name` and id. -/
structure user where
  firstName : List Char
  id : Int
deriving DecidableEq

namespace Sendtag

/-- Index of the first match of the unanchored regex `[\n>].*$` (no `m`
flag): the first position holding `\n` or `>` whose strict suffix contains
no further newline. -/
def noteMatchIdx (l : List Char) : Option Nat :=
  (List.range l.length).find? (fun i =>
    (match l.get? i with
     | some c => c == '\n' || c == '>'
     | none => false) && !((l.drop (i + 1)).contains '\n'))

/-- First regex step of `clean` in src/Sendtag.res: replace the first match
of `[\n>].*$` by the empty string. -/
def stripNoteTail (l : List Char) : List Char :=
  match noteMatchIdx l with
  | some i => l.take i
  | none => l

/-- `Sendtag.clean` in src/Sendtag.res: drop a note tail, strip leading
slashes, remove characters outside `[A-Za-z0-9_]`, truncate to 20, trim. -/
def clean (raw : List Char) : List Char :=
  let s1 := stripNoteTail raw
  let s2 := s1.dropWhile (fun c => c == '/')
  let s3 := s2.filter allowedChar
  let s4 := if 20 < s3.length then s3.take 20 else s3
  trim s4

/-- `Sendtag.parse` in src/Sendtag.res. -/
def parse (s : List Char) : Option (List Char) :=
  let c := clean s
  if c = [] then none else some c

end Sendtag

namespace Command

/-- `cleanSendtag` in src/Command.res: remove characters outside
`[A-Za-z0-9_]`; empty or longer than 20 is rejected with `none`. -/
def cleanSendtag (tag : List Char) : Option (List Char) :=
  match tag.filter allowedChar with
  | [] => none
  | cleaned => if 20 < cleaned.length then none else some cleaned

end Command

namespace Index

/-- `extractCleanSendtagFromUser` in src/Index.res: the part of the first
name after the first `/`, stripped of characters outside `[A-Za-z0-9_]`
and trimmed; `none` exactly when that result is empty. -/
def extractCleanSendtagFromUser (u : user) : Option (List Char) :=
  let nameParts := u.firstName.splitOn '/'
  let rawSendtag := (nameParts.get? 1).getD []
  let cleanSendtag := trim (rawSendtag.filter allowedChar)
  if cleanSendtag = [] then none else some cleanSendtag

/-- The deduplication step of `processPendingJoins` in src/Index.res:
keep the first occurrence of each `userId`, preserving arrival order. -/
def dedupByUserId (ps : List player) : List player :=
  ps.foldl
    (fun acc p => if acc.any (fun q => q.userId == p.userId) then acc else acc ++ [p]) []

/-- The store transition of `processPendingJoins` in src/Index.res, acting
on the chat's pending-join slot and game slot.  When a batch and a
`Collecting` game are present, the pending entry is deleted, the
deduplicated candidates are folded through `Game.addPlayer`, and the final
state is written back to the game slot.  In every other case the function
returns with both slots untouched.  The outer `none` models `addPlayer`
raising. -/
def processPendingJoins (pj : Option pendingJoin) (g : Option state) :
    Option (Option pendingJoin × Option state) :=
  match pj, g with
  | some b, some (.Collecting c) =>
      match Game.runAdds (.Collecting c) (dedupByUserId b.players) with
      | some final => some (none, some final)
      | none => none
  | _, _ => some (pj, g)

/-- The join-result computation of `handleJoinGame` in src/Index.res:
from the chat's game slot, pending-join slot and the tapping user, produce
the `joinResult` and the new pending-join slot.  `freshTimeoutId` is the
timer handle `setTimeout` would return when a timer is armed. -/
def handleJoinGame (g : Option state) (pj : Option pendingJoin) (userOpt : Option user)
    (callbackQueryId : Int) (freshTimeoutId : Int) : joinResult × Option pendingJoin :=
  match g, userOpt with
  | some (.Collecting c), some u =>
      let nameParts := u.firstName.splitOn '/'
      let rawSendtag := (nameParts.get? 1).getD []
      let cleanSendtag := trim (rawSendtag.filter allowedChar)
      if cleanSendtag = [] then (.Error .NoSendTag, pj)
      else
        let isAlreadyPending :=
          match pj with
          | some b => b.players.any (fun p => p.userId == u.id)
          | none => false
        let isAlreadyInGame := c.players.any (fun p => p.userId == u.id)
        if isAlreadyInGame || isAlreadyPending then (.Error .AlreadyJoined, pj)
        else
          let p : player :=
            { sendtag := '/' :: cleanSendtag
              userId := u.id
              callbackQueryId := callbackQueryId }
          let old := pj.getD { players := [], timeout := none }
          let updatedPlayers := old.players ++ [p]
          let timeout :=
            match old.timeout with
            | some t => some t
            | none => some freshTimeoutId
          (.Success (updatedPlayers.length : Int),
           some { players := updatedPlayers, timeout := timeout })
  | none, _ => (.Error .NoActiveGame, pj)
  | _, _ => (.Error .GameFull, pj)

end Index

namespace Game

/-- Invariant tying a state to the capacity `N` it was created with:
a `Collecting` state has strictly fewer players than capacity and an
in-range winning number, a `Completed` state holds exactly `N` players,
and the terminal-free constructors are unreachable by `runAdds` from a
freshly created game. -/
def Inv (N : Int) : state → Prop
  | .Collecting c =>
      c.maxPlayers = N ∧ (c.players.length : Int) < N ∧
      1 ≤ c.winningNumber ∧ c.winningNumber ≤ N
  | .Completed c => (c.players.length : Int) = N
  | .Initializing => False
  | .Cancelled _ => False

end Game

lemma arrayGet_eq (l : List player) (i : Int) (h : 0 ≤ i) :
    Game.arrayGet l i = l.get? i.toNat := by
  simp [Game.arrayGet, h]

lemma winningNumberDraw_range (r : ℚ) (N : Int) (h0 : 0 ≤ r) (h1 : r < 1) (hN : 1 ≤ N) :
    1 ≤ Game.winningNumberDraw r N ∧ Game.winningNumberDraw r N ≤ N := by
  have hNpos : (0 : ℚ) < (N : ℚ) := by exact_mod_cast (by omega : (0 : Int) < N)
  have hlow : (0 : Int) ≤ ⌊r * (N : ℚ)⌋ := Int.floor_nonneg.mpr (mul_nonneg h0 hNpos.le)
  have hhigh : ⌊r * (N : ℚ)⌋ < N := by
    apply Int.floor_lt.mpr
    calc r * (N : ℚ) < 1 * (N : ℚ) := by exact mul_lt_mul_of_pos_right h1 hNpos
    _ = (N : ℚ) := one_mul _
  unfold Game.winningNumberDraw
  omega

lemma addPlayer_full_step (c : collectingData) (p : player)
    (hfull : c.maxPlayers ≤ (c.players.length : Int) + 1)
    (hk1 : 1 ≤ c.winningNumber) (hk2 : c.winningNumber ≤ (c.players.length : Int) + 1) :
    ∃ w, (c.players ++ [p]).get? (c.winningNumber - 1).toNat = some w ∧
      Game.addPlayer (.Collecting c) p =
        some (.Completed
          { players := c.players ++ [p]
            winningNumber := c.winningNumber
            amount := c.amount
            baseAmount := c.baseAmount
            surgeAmount := c.surgeAmount
            master := c.master
            winner := w },
          Game.jsIndexOf (c.players ++ [p]) p + 1) := by
  have hlen : (c.players ++ [p]).length = c.players.length + 1 := by simp
  have hidx : (c.winningNumber - 1).toNat < (c.players ++ [p]).length := by
    rw [hlen]; omega
  obtain ⟨w, hw⟩ : ∃ w, (c.players ++ [p]).get? (c.winningNumber - 1).toNat = some w :=
    ⟨_, List.get?_eq_get hidx⟩
  refine ⟨w, hw, ?_⟩
  have hcond : ((c.players ++ [p]).length : Int) ≥ c.maxPlayers := by
    rw [hlen]; push_cast; omega
  simp only [Game.addPlayer]
  rw [if_pos hcond, arrayGet_eq _ _ (by omega), hw]

lemma addPlayer_notfull_step (c : collectingData) (p : player)
    (hlt : (c.players.length : Int) + 1 < c.maxPlayers) :
    Game.addPlayer (.Collecting c) p =
      some (.Collecting { c with players := c.players ++ [p] },
        Game.jsIndexOf (c.players ++ [p]) p + 1) := by
  have hcond : ¬ ((c.players ++ [p]).length : Int) ≥ c.maxPlayers := by
    simp only [List.length_append, List.length_cons, List.length_nil]
    push_cast; omega
  simp only [Game.addPlayer]
  rw [if_neg hcond]

lemma addPlayer_inv {N : Int} {st : state} (h : Game.Inv N st) (p : player) :
    ∃ st' pos, Game.addPlayer st p = some (st', pos) ∧ Game.Inv N st' := by
  cases st with
  | Collecting c =>
      obtain ⟨hmax, hlt, hw1, hw2⟩ := h
      by_cases hfull : c.maxPlayers ≤ (c.players.length : Int) + 1
      · obtain ⟨w, _, heq⟩ := addPlayer_full_step c p hfull hw1 (by omega)
        refine ⟨_, _, heq, ?_⟩
        show ((c.players ++ [p]).length : Int) = N
        simp only [List.length_append, List.length_cons, List.length_nil]
        push_cast; omega
      · refine ⟨_, _, addPlayer_notfull_step c p (by omega), ?_⟩
        refine ⟨hmax, ?_, hw1, hw2⟩
        simp only [List.length_append, List.length_cons, List.length_nil]
        push_cast; omega
  | Completed c => exact ⟨_, _, rfl, h⟩
  | Initializing => exact h.elim
  | Cancelled r => exact h.elim

lemma runAdds_inv {N : Int} {st : state} (h : Game.Inv N st) (ps : List player) :
    ∃ st', Game.runAdds st ps = some st' ∧ Game.Inv N st' := by
  induction ps generalizing st with
  | nil => exact ⟨st, rfl, h⟩
  | cons p rest ih =>
      obtain ⟨st', pos, hstep, hinv⟩ := addPlayer_inv h p
      obtain ⟨st'', hrun, hinv'⟩ := ih hinv
      exact ⟨st'', by simp [Game.runAdds, hstep, hrun], hinv'⟩

lemma inv_createGame (cid master N base : Int) (surgeOpt : Option surge) (r now : ℚ)
    (hN : 1 ≤ N) (h0 : 0 ≤ r) (h1 : r < 1) :
    Game.Inv N (Game.createGame cid master N base surgeOpt r now).2 := by
  obtain ⟨hlo, hhi⟩ := winningNumberDraw_range r N h0 h1 hN
  exact ⟨rfl, by simpa using by omega, hlo, hhi⟩

lemma inv_count_le {N : Int} {st : state} (h : Game.Inv N st) :
    Game.playersCount st ≤ N := by
  cases st with
  | Collecting c => exact le_of_lt h.2.1
  | Completed c => exact le_of_eq h
  | Initializing => exact h.elim
  | Cancelled r => exact h.elim

lemma inv_at_capacity {N : Int} {st : state} (h : Game.Inv N st)
    (hc : Game.playersCount st = N) (p : player) :
    Game.addPlayer st p = some (st, -1) := by
  cases st with
  | Collecting c =>
      exact absurd hc (by have := h.2.1; simp only [Game.playersCount]; omega)
  | Completed c => rfl
  | Initializing => exact h.elim
  | Cancelled r => exact h.elim

lemma extract_eq (u : user) :
    Index.extractCleanSendtagFromUser u =
      (if trim ((((u.firstName.splitOn '/').get? 1).getD []).filter allowedChar) = []
       then none
       else some (trim ((((u.firstName.splitOn '/').get? 1).getD []).filter allowedChar))) :=
  rfl

lemma parse_eq (s : List Char) :
    Sendtag.parse s =
      if Sendtag.clean s = [] then none else some (Sendtag.clean s) :=
  rfl

lemma trim_subset (l : List Char) : trim l ⊆ l := by
  intro c hc
  unfold trim at hc
  rw [List.mem_reverse] at hc
  have h1 := (List.dropWhile_sublist (l := (l.dropWhile isJsWhitespace).reverse)
    isJsWhitespace).subset hc
  rw [List.mem_reverse] at h1
  exact (List.dropWhile_sublist (l := l) isJsWhitespace).subset h1

lemma trim_length_le (l : List Char) : (trim l).length ≤ l.length := by
  unfold trim
  calc (((l.dropWhile isJsWhitespace).reverse.dropWhile isJsWhitespace).reverse).length
      = ((l.dropWhile isJsWhitespace).reverse.dropWhile isJsWhitespace).length := by
        rw [List.length_reverse]
    _ ≤ (l.dropWhile isJsWhitespace).reverse.length :=
        (List.dropWhile_sublist _).length_le
    _ = (l.dropWhile isJsWhitespace).length := by rw [List.length_reverse]
    _ ≤ l.length := (List.dropWhile_sublist _).length_le

lemma clean_eq (raw : List Char) :
    Sendtag.clean raw =
      trim (if 20 <
              (((Sendtag.stripNoteTail raw).dropWhile (fun c => c == '/')).filter
                allowedChar).length
            then (((Sendtag.stripNoteTail raw).dropWhile (fun c => c == '/')).filter
                allowedChar).take 20
            else ((Sendtag.stripNoteTail raw).dropWhile (fun c => c == '/')).filter
                allowedChar) := rfl

lemma clean_length_le (raw : List Char) : (Sendtag.clean raw).length ≤ 20 := by
  rw [clean_eq]
  set s3 := ((Sendtag.stripNoteTail raw).dropWhile (fun c => c == '/')).filter allowedChar
    with hs3
  by_cases h : 20 < s3.length
  · rw [if_pos h]
    calc (trim (s3.take 20)).length ≤ (s3.take 20).length := trim_length_le _
      _ ≤ 20 := by simp
  · rw [if_neg h]
    calc (trim s3).length ≤ s3.length := trim_length_le _
      _ ≤ 20 := by omega

lemma clean_all_allowed (raw : List Char) : (Sendtag.clean raw).all allowedChar = true := by
  rw [List.all_eq_true]
  intro c hc
  rw [clean_eq] at hc
  set s3 := ((Sendtag.stripNoteTail raw).dropWhile (fun c => c == '/')).filter allowedChar
    with hs3
  have hmem : c ∈ s3 := by
    by_cases h : 20 < s3.length
    · rw [if_pos h] at hc
      exact List.take_subset _ _ (trim_subset _ hc)
    · rw [if_neg h] at hc
      exact trim_subset _ hc
  exact (List.mem_filter.mp hmem).2

/-- C5: once a session is `Completed` or `Cancelled` it never transitions
again: `addPlayer` returns the session unchanged with position `-1`, and
`cancelGame` returns it unchanged, for every player and reason. -/
theorem terminal_states_immutable :
    ∀ (d : completedData) (rs : cancelReason) (p : player) (reason : cancelReason),
      Game.addPlayer (.Completed d) p = some (.Completed d, -1) ∧
      Game.cancelGame (.Completed d) reason = .Completed d ∧
      Game.addPlayer (.Cancelled rs) p = some (.Cancelled rs, -1) ∧
      Game.cancelGame (.Cancelled rs) reason = .Cancelled rs := by
  intro d rs p reason
  exact ⟨rfl, rfl, rfl, rfl⟩

/-- C4 counterexample: `addPlayer` performs no duplicate-identity check.
On a `Collecting` session already holding a player with `userId = 1`, a
second player with the same `userId` is appended and reported at
position 2, not rejected with the unchanged session and `-1`. -/
theorem addPlayer_duplicate_identity_cex :
    Game.addPlayer (.Collecting ⟨[⟨['v'], 1, 10⟩], 2, 50, 50, 0, 7, 3, 0⟩) ⟨['v'], 1, 11⟩ =
      some (.Collecting ⟨[⟨['v'], 1, 10⟩, ⟨['v'], 1, 11⟩], 2, 50, 50, 0, 7, 3, 0⟩, 2) ∧
    Game.addPlayer (.Collecting ⟨[⟨['v'], 1, 10⟩], 2, 50, 50, 0, 7, 3, 0⟩) ⟨['v'], 1, 11⟩ ≠
      some (.Collecting ⟨[⟨['v'], 1, 10⟩], 2, 50, 50, 0, 7, 3, 0⟩, -1) := by
  exact ⟨by decide, by decide⟩

/-- C4 amended: `addPlayer` is a no-op returning the unchanged session and
`-1` exactly when the session is not `Collecting`; on a `Collecting`
session it always appends the player, even when the same identity is
already present.  Duplicate joins are instead rejected upstream: the join
handler answers `AlreadyJoined` when the tapping user's id is already in
the player list. -/
theorem addPlayer_noop_only_when_not_collecting :
    (∀ (st : state) (p : player), Game.isCollecting st = false →
      Game.addPlayer st p = some (st, -1)) ∧
    (∀ (c : collectingData) (p : player) (st' : state) (pos : Int),
      Game.addPlayer (.Collecting c) p = some (st', pos) →
      Game.playersOf st' = c.players ++ [p]) ∧
    (∀ (c : collectingData) (u : user) (pj : Option pendingJoin) (cb ft : Int),
      Index.extractCleanSendtagFromUser u ≠ none →
      c.players.any (fun q => q.userId == u.id) = true →
      Index.handleJoinGame (some (.Collecting c)) pj (some u) cb ft =
        (.Error .AlreadyJoined, pj)) := by
  refine ⟨?_, ?_, ?_⟩
  · intro st p h
    cases st with
    | Collecting c => simp [Game.isCollecting] at h
    | Completed c => rfl
    | Initializing => rfl
    | Cancelled r => rfl
  · intro c p st' pos h
    simp only [Game.addPlayer] at h
    by_cases hge : ((c.players ++ [p]).length : Int) ≥ c.maxPlayers
    · rw [if_pos hge] at h
      rcases harr : Game.arrayGet (c.players ++ [p]) (c.winningNumber - 1) with _ | w
      · rw [harr] at h; exact Option.noConfusion h
      · rw [harr] at h
        cases h
        simp [Game.playersOf]
    · rw [if_neg hge] at h
      cases h
      simp [Game.playersOf]
  · intro c u pj cb ft hne hmem
    have h1 : trim ((((u.firstName.splitOn '/').get? 1).getD []).filter allowedChar) ≠ [] := by
      intro h
      exact hne (by rw [extract_eq, if_pos h])
    simp only [Index.handleJoinGame]
    rw [if_neg h1]
    simp [hmem]

/-- C4 amended witness: the three parts applied at concrete inputs. -/
theorem addPlayer_noop_only_when_not_collecting_witness :
    (Game.isCollecting (.Cancelled .Expired) = false ∧
      Game.addPlayer (.Cancelled .Expired) ⟨['v'], 1, 10⟩ =
        some (.Cancelled .Expired, -1)) ∧
    (Game.addPlayer (.Collecting ⟨[], 1, 50, 50, 0, 7, 3, 0⟩) ⟨['v'], 1, 10⟩ =
        some (.Collecting ⟨[⟨['v'], 1, 10⟩], 1, 50, 50, 0, 7, 3, 0⟩, 1) ∧
      Game.playersOf (.Collecting ⟨[⟨['v'], 1, 10⟩], 1, 50, 50, 0, 7, 3, 0⟩) =
        [] ++ [⟨['v'], 1, 10⟩]) ∧
    (Index.extractCleanSendtagFromUser ⟨['x', '/', 'v'], 1⟩ ≠ none ∧
      [(⟨['v'], 1, 10⟩ : player)].any (fun q => q.userId == (1 : Int)) = true ∧
      Index.handleJoinGame
          (some (.Collecting ⟨[⟨['v'], 1, 10⟩], 1, 50, 50, 0, 7, 3, 0⟩))
          none (some ⟨['x', '/', 'v'], 1⟩) 11 12 =
        (.Error .AlreadyJoined, none)) := by
  refine ⟨⟨by decide, ?_⟩, ⟨by decide, ?_⟩, ⟨by decide, by decide, ?_⟩⟩
  · exact addPlayer_noop_only_when_not_collecting.1 _ _ (by decide)
  · exact addPlayer_noop_only_when_not_collecting.2.1 ⟨[], 1, 50, 50, 0, 7, 3, 0⟩
      ⟨['v'], 1, 10⟩ (.Collecting ⟨[⟨['v'], 1, 10⟩], 1, 50, 50, 0, 7, 3, 0⟩) 1 (by decide)
  · exact addPlayer_noop_only_when_not_collecting.2.2 _ _ none 11 12 (by decide) (by decide)

/-- C7: evaluation at the failing input.  A pending-join batch exists for
the chat and the game slot holds a `Cancelled` session when the batch
timer fires; `processPendingJoins` returns with the pending-join entry
still present (candidates and fired timer id included) instead of
destroying it. -/
theorem pending_buffer_survives_discard :
    Index.processPendingJoins (some ⟨[⟨['v'], 1, 10⟩], some 7⟩)
        (some (.Cancelled .MasterCancelled)) =
      some (some ⟨[⟨['v'], 1, 10⟩], some 7⟩, some (.Cancelled .MasterCancelled)) ∧
    (some (⟨[⟨['v'], 1, 10⟩], some 7⟩ : pendingJoin) ≠ (none : Option pendingJoin)) := by
  exact ⟨rfl, by decide⟩

/-- C6 counterexample: batch resolution that completes a game writes the
`Completed` session back into the store (the game slot is `some`, not
deleted), and a join arriving while the store holds that `Completed`
session is answered `GameFull`, not `NoActiveGame`. -/
theorem store_holds_terminal_session_cex :
    Index.processPendingJoins (some ⟨[⟨['v'], 1, 10⟩], some 5⟩)
        (some (.Collecting ⟨[], 1, 50, 50, 0, 7, 1, 0⟩)) =
      some (none, some (.Completed ⟨[⟨['v'], 1, 10⟩], 1, 50, 50, 0, 7, ⟨['v'], 1, 10⟩⟩)) ∧
    Index.handleJoinGame
        (some (.Completed ⟨[⟨['v'], 1, 10⟩], 1, 50, 50, 0, 7, ⟨['v'], 1, 10⟩⟩))
        none (some ⟨['x', '/', 'u'], 4⟩) 9 10 =
      (.Error .GameFull, none) ∧
    (joinResult.Error .GameFull ≠ joinResult.Error .NoActiveGame) := by
  exact ⟨by decide, by decide, by decide⟩

/-- C6 amended: a session that reaches a terminal state is not removed
from the session store — batch resolution writes the final (possibly
`Completed`) state back into the game slot, where it stays until the next
game creation overwrites it — and a join submitted while the store holds a
`Completed` session is acknowledged with the game-full outcome and the
joiner is never added (the pending buffer is returned unchanged). -/
theorem completed_session_stays_in_store :
    (∀ (b : pendingJoin) (c : collectingData) (final : state),
      Game.runAdds (.Collecting c) (Index.dedupByUserId b.players) = some final →
      Index.processPendingJoins (some b) (some (.Collecting c)) = some (none, some final)) ∧
    (∀ (d : completedData) (pj : Option pendingJoin) (uo : Option user) (cb ft : Int),
      Index.handleJoinGame (some (.Completed d)) pj uo cb ft = (.Error .GameFull, pj)) := by
  constructor
  · intro b c final h
    simp [Index.processPendingJoins, h]
  · intro d pj uo cb ft
    cases uo <;> rfl

/-- C6 amended witness: a one-candidate batch filling a one-slot game, and
a join against the stored `Completed` session. -/
theorem completed_session_stays_in_store_witness :
    (Game.runAdds (.Collecting ⟨[], 1, 50, 50, 0, 7, 1, 0⟩)
        (Index.dedupByUserId [⟨['v'], 1, 10⟩]) =
      some (.Completed ⟨[⟨['v'], 1, 10⟩], 1, 50, 50, 0, 7, ⟨['v'], 1, 10⟩⟩) ∧
      Index.processPendingJoins (some ⟨[⟨['v'], 1, 10⟩], some 5⟩)
          (some (.Collecting ⟨[], 1, 50, 50, 0, 7, 1, 0⟩)) =
        some (none,
          some (.Completed ⟨[⟨['v'], 1, 10⟩], 1, 50, 50, 0, 7, ⟨['v'], 1, 10⟩⟩))) ∧
    Index.handleJoinGame
        (some (.Completed ⟨[⟨['v'], 1, 10⟩], 1, 50, 50, 0, 7, ⟨['v'], 1, 10⟩⟩))
        (some ⟨[], none⟩) (some ⟨['x', '/', 'u'], 4⟩) 9 10 =
      (.Error .GameFull, some ⟨[], none⟩) := by
  refine ⟨⟨by decide, ?_⟩, ?_⟩
  · exact completed_session_stays_in_store.1 ⟨[⟨['v'], 1, 10⟩], some 5⟩ _ _ (by decide)
  · exact completed_session_stays_in_store.2 _ (some ⟨[], none⟩) (some ⟨['x', '/', 'u'], 4⟩) 9 10

/-- C1: for a `Collecting` session with capacity `N` and winning position
`k` in `[1, N]`, the `addPlayer` call that makes the player list reach `N`
yields a `Completed` state whose winner is exactly the `k`-th admitted
player (`players'[k-1]`), and neither `addPlayer` nor `cancelGame` ever
changes that state (so winner and winning position are never recomputed). -/
theorem winner_determinism (c : collectingData) (p : player) (k N : Int)
    (hk : c.winningNumber = k) (hN : c.maxPlayers = N) (h1 : 1 ≤ k) (h2 : k ≤ N)
    (hlen : (c.players.length : Int) = N - 1) :
    ∃ st' pos, Game.addPlayer (.Collecting c) p = some (st', pos) ∧
      Game.isCompleted st' = true ∧
      Game.winnerOf st' = (c.players ++ [p]).get? (k - 1).toNat ∧
      Game.winningNumOf st' = some k ∧
      Game.playersOf st' = c.players ++ [p] ∧
      (∀ q, Game.addPlayer st' q = some (st', -1)) ∧
      (∀ reason, Game.cancelGame st' reason = st') := by
  obtain ⟨w, hw, heq⟩ := addPlayer_full_step c p (by omega) (by omega) (by omega)
  refine ⟨_, _, heq, rfl, ?_, ?_, ?_, fun q => rfl, fun reason => rfl⟩
  · show some w = (c.players ++ [p]).get? (k - 1).toNat
    rw [← hk]
    exact hw.symm
  · show some c.winningNumber = some k
    rw [hk]
  · rfl

/-- C1 witness: a one-slot session with winning position 1. -/
theorem winner_determinism_witness :
    ((⟨[], 1, 50, 50, 0, 7, 1, 0⟩ : collectingData).winningNumber = 1 ∧
      (⟨[], 1, 50, 50, 0, 7, 1, 0⟩ : collectingData).maxPlayers = 1 ∧
      (1 : Int) ≤ 1 ∧ (1 : Int) ≤ 1 ∧
      (((⟨[], 1, 50, 50, 0, 7, 1, 0⟩ : collectingData).players.length : Int) = 1 - 1)) ∧
    (∃ st' pos,
      Game.addPlayer (.Collecting ⟨[], 1, 50, 50, 0, 7, 1, 0⟩) ⟨['v'], 1, 10⟩ =
        some (st', pos) ∧
      Game.isCompleted st' = true ∧
      Game.winnerOf st' = ([] ++ [(⟨['v'], 1, 10⟩ : player)]).get? ((1 : Int) - 1).toNat ∧
      Game.winningNumOf st' = some 1 ∧
      Game.playersOf st' = [] ++ [(⟨['v'], 1, 10⟩ : player)] ∧
      (∀ q, Game.addPlayer st' q = some (st', -1)) ∧
      (∀ reason, Game.cancelGame st' reason = st')) := by
  refine ⟨⟨rfl, rfl, le_refl 1, le_refl 1, by decide⟩, ?_⟩
  exact winner_determinism ⟨[], 1, 50, 50, 0, 7, 1, 0⟩ ⟨['v'], 1, 10⟩ 1 1 rfl rfl
    (le_refl 1) (le_refl 1) (by decide)

/-- C2: for every session produced by `createGame` with capacity `N ≥ 1`
(random draw in `[0,1)`) and every sequence of `addPlayer` calls, no call
raises, the player count never exceeds `N`, and once the count equals `N`
any further `addPlayer` call returns the session unchanged with the
overflow sentinel `-1`. -/
theorem capacity_invariant (cid master N base : Int) (surgeOpt : Option surge) (r now : ℚ)
    (ps : List player) (hN : 1 ≤ N) (h0 : 0 ≤ r) (h1 : r < 1) :
    ∃ st', Game.runAdds (Game.createGame cid master N base surgeOpt r now).2 ps = some st' ∧
      Game.playersCount st' ≤ N ∧
      (Game.playersCount st' = N → ∀ p, Game.addPlayer st' p = some (st', -1)) := by
  obtain ⟨st', hrun, hinv⟩ :=
    runAdds_inv (inv_createGame cid master N base surgeOpt r now hN h0 h1) ps
  exact ⟨st', hrun, inv_count_le hinv, fun hc p => inv_at_capacity hinv hc p⟩

/-- C2 witness: capacity 2, three joins; the third is the overflow no-op. -/
theorem capacity_invariant_witness :
    ((1 : Int) ≤ 2 ∧ (0 : ℚ) ≤ 0 ∧ (0 : ℚ) < 1) ∧
    (∃ st', Game.runAdds (Game.createGame 3 7 2 50 none 0 0).2
        [⟨['a'], 1, 10⟩, ⟨['b'], 2, 11⟩, ⟨['c'], 3, 12⟩] = some st' ∧
      Game.playersCount st' ≤ 2 ∧
      (Game.playersCount st' = 2 → ∀ p, Game.addPlayer st' p = some (st', -1))) := by
  refine ⟨⟨by norm_num, le_refl 0, by norm_num⟩, ?_⟩
  exact capacity_invariant 3 7 2 50 none 0 0
    [⟨['a'], 1, 10⟩, ⟨['b'], 2, 11⟩, ⟨['c'], 3, 12⟩] (by norm_num) (le_refl 0) (by norm_num)

/-- C9: under the in-range precondition the defensive failure branch of
`addPlayer` is unreachable — every run of `addPlayer` calls from a
`createGame` session with capacity `N ≥ 1` and draw in `[0,1)` succeeds —
and `addPlayer` raises only when the invariant is violated: a `none`
result forces a `Collecting` state whose winning number lies outside
`[1, maxPlayers]`. -/
theorem defensive_branch_unreachable (cid master N base : Int) (surgeOpt : Option surge)
    (r now : ℚ) (ps : List player) (hN : 1 ≤ N) (h0 : 0 ≤ r) (h1 : r < 1) :
    (Game.runAdds (Game.createGame cid master N base surgeOpt r now).2 ps).isSome = true ∧
    (∀ (st : state) (p : player), Game.addPlayer st p = none →
      ∃ c, st = state.Collecting c ∧
        (c.winningNumber < 1 ∨ c.maxPlayers < c.winningNumber)) := by
  constructor
  · obtain ⟨st', hrun, _⟩ :=
      runAdds_inv (inv_createGame cid master N base surgeOpt r now hN h0 h1) ps
    rw [hrun]
    rfl
  · intro st p hnone
    cases st with
    | Collecting c =>
        refine ⟨c, rfl, ?_⟩
        by_contra hcon
        push_neg at hcon
        obtain ⟨hw1, hw2⟩ := hcon
        simp only [Game.addPlayer] at hnone
        by_cases hge : ((c.players ++ [p]).length : Int) ≥ c.maxPlayers
        · rw [if_pos hge] at hnone
          rcases harr : Game.arrayGet (c.players ++ [p]) (c.winningNumber - 1) with _ | w
          · rw [arrayGet_eq _ _ (by omega)] at harr
            have hidx : (c.winningNumber - 1).toNat < (c.players ++ [p]).length := by
              simp only [List.length_append, List.length_cons, List.length_nil] at hge ⊢
              omega
            rw [List.get?_eq_get hidx] at harr
            exact Option.noConfusion harr
          · rw [harr] at hnone
            exact Option.noConfusion hnone
        · rw [if_neg hge] at hnone
          exact Option.noConfusion hnone
    | Completed c => exact Option.noConfusion hnone
    | Initializing => exact Option.noConfusion hnone
    | Cancelled rs => exact Option.noConfusion hnone

/-- C9 witness: a concrete run that fills a two-slot session. -/
theorem defensive_branch_unreachable_witness :
    ((1 : Int) ≤ 2 ∧ (0 : ℚ) ≤ 0 ∧ (0 : ℚ) < 1) ∧
    ((Game.runAdds (Game.createGame 3 7 2 50 none 0 0).2
        [⟨['a'], 1, 10⟩, ⟨['b'], 2, 11⟩]).isSome = true ∧
      (∀ (st : state) (p : player), Game.addPlayer st p = none →
        ∃ c, st = state.Collecting c ∧
          (c.winningNumber < 1 ∨ c.maxPlayers < c.winningNumber))) := by
  refine ⟨⟨by norm_num, le_refl 0, by norm_num⟩, ?_⟩
  exact defensive_branch_unreachable 3 7 2 50 none 0 0
    [⟨['a'], 1, 10⟩, ⟨['b'], 2, 11⟩] (by norm_num) (le_refl 0) (by norm_num)

/-- C8: for a surge state with multiplier `m` passed to session creation:
if the elapsed time since the surge's last activity is at least the
cooldown window the created session's surge stake is `0` and its total
stake is the base stake; if it is still within the window, the surge stake
is `m * surgeIncrease` and the total is base plus that. -/
theorem surge_pricing_at_creation (cid master N base : Int) (s : surge) (r now : ℚ) :
    ((Game.surgeCooldown : ℚ) ≤ now - s.updatedAt →
      Game.surgeAmountOf (Game.createGame cid master N base (some s) r now).2 = 0 ∧
      Game.amountOf (Game.createGame cid master N base (some s) r now).2 = base) ∧
    (now - s.updatedAt < (Game.surgeCooldown : ℚ) →
      Game.surgeAmountOf (Game.createGame cid master N base (some s) r now).2 =
        s.multiplier * Game.surgeIncrease ∧
      Game.amountOf (Game.createGame cid master N base (some s) r now).2 =
        base + s.multiplier * Game.surgeIncrease) := by
  constructor
  · intro h
    have hb : Game.isSurgeActive now s = false := by
      unfold Game.isSurgeActive
      exact decide_eq_false (not_lt.mpr h)
    simp [Game.createGame, Game.surgeAmountOf, Game.amountOf, hb]
  · intro h
    have hb : Game.isSurgeActive now s = true := by
      unfold Game.isSurgeActive
      exact decide_eq_true h
    simp [Game.createGame, Game.surgeAmountOf, Game.amountOf, hb]

/-- C8 witness: multiplier 3, once after the window and once within it. -/
theorem surge_pricing_at_creation_witness :
    ((Game.surgeCooldown : ℚ) ≤ 60000 - (0 : ℚ) ∧
      (Game.surgeAmountOf (Game.createGame 3 7 10 50 (some ⟨0, 3⟩) 0 60000).2 = 0 ∧
        Game.amountOf (Game.createGame 3 7 10 50 (some ⟨0, 3⟩) 0 60000).2 = 50)) ∧
    ((1000 : ℚ) - (0 : ℚ) < (Game.surgeCooldown : ℚ) ∧
      (Game.surgeAmountOf (Game.createGame 3 7 10 50 (some ⟨0, 3⟩) 0 1000).2 =
          (⟨0, 3⟩ : surge).multiplier * Game.surgeIncrease ∧
        Game.amountOf (Game.createGame 3 7 10 50 (some ⟨0, 3⟩) 0 1000).2 =
          50 + (⟨0, 3⟩ : surge).multiplier * Game.surgeIncrease)) := by
  constructor
  · exact ⟨by norm_num [Game.surgeCooldown],
      (surge_pricing_at_creation 3 7 10 50 ⟨0, 3⟩ 0 60000).1
        (by norm_num [Game.surgeCooldown])⟩
  · exact ⟨by norm_num [Game.surgeCooldown],
      (surge_pricing_at_creation 3 7 10 50 ⟨0, 3⟩ 0 1000).2
        (by norm_num [Game.surgeCooldown])⟩

/-- C3: `createGame` draws the winning position once at creation, before
any player joins (the created state has an empty player list and carries
the drawn number): for capacity `N ≥ 1` and every random value in
`[0,1)` the drawn position lies in `[1, N]`, and for each position `j` in
`[1, N]` the set of random values producing `j` is exactly the half-open
interval `[(j-1)/N, j/N)` — every position is produced by an interval of
the same length `1/N`, so neither endpoint is favored or missed. -/
theorem uniform_winning_position_draw (N : Int) (hN : 1 ≤ N) :
    (∀ r : ℚ, 0 ≤ r → r < 1 →
      (1 ≤ Game.winningNumberDraw r N ∧ Game.winningNumberDraw r N ≤ N) ∧
      ∀ cid master base surgeOpt now, ∃ c,
        (Game.createGame cid master N base surgeOpt r now).2 = state.Collecting c ∧
        c.players = [] ∧ c.winningNumber = Game.winningNumberDraw r N) ∧
    (∀ j : Int, 1 ≤ j → j ≤ N →
      {r : ℚ | 0 ≤ r ∧ r < 1 ∧ Game.winningNumberDraw r N = j} =
        Set.Ico (((j : ℚ) - 1) / (N : ℚ)) ((j : ℚ) / (N : ℚ)) ∧
      (j : ℚ) / (N : ℚ) - ((j : ℚ) - 1) / (N : ℚ) = 1 / (N : ℚ)) := by
  have hNpos : (0 : ℚ) < (N : ℚ) := by exact_mod_cast (by omega : (0 : Int) < N)
  constructor
  · intro r h0 h1
    exact ⟨winningNumberDraw_range r N h0 h1 hN,
      fun cid master base surgeOpt now => ⟨_, rfl, rfl, rfl⟩⟩
  · intro j hj1 hj2
    constructor
    · ext r
      simp only [Set.mem_setOf_eq, Set.mem_Ico]
      constructor
      · rintro ⟨h0, h1, hdraw⟩
        have hfl : ⌊r * (N : ℚ)⌋ = j - 1 := by
          unfold Game.winningNumberDraw at hdraw
          omega
        obtain ⟨hlo, hhi⟩ := Int.floor_eq_iff.mp hfl
        constructor
        · rw [div_le_iff₀ hNpos]
          push_cast at hlo
          linarith
        · rw [lt_div_iff₀ hNpos]
          push_cast at hhi
          linarith
      · rintro ⟨hlo, hhi⟩
        have hrlo : ((j : ℚ) - 1) ≤ r * (N : ℚ) := by
          rw [div_le_iff₀ hNpos] at hlo
          linarith
        have hrhi : r * (N : ℚ) < (j : ℚ) := by
          rw [lt_div_iff₀ hNpos] at hhi
          linarith
        have h0 : 0 ≤ r := by
          have hj : (1 : ℚ) ≤ (j : ℚ) := by exact_mod_cast hj1
          have hnum : (0 : ℚ) ≤ ((j : ℚ) - 1) / (N : ℚ) :=
            div_nonneg (by linarith) hNpos.le
          linarith
        have h1 : r < 1 := by
          have hle : (j : ℚ) / (N : ℚ) ≤ 1 := by
            rw [div_le_one hNpos]
            exact_mod_cast hj2
          linarith
        refine ⟨h0, h1, ?_⟩
        have hfl : ⌊r * (N : ℚ)⌋ = j - 1 := by
          apply Int.floor_eq_iff.mpr
          constructor
          · push_cast
            linarith
          · push_cast
            linarith
        unfold Game.winningNumberDraw
        omega
    · have hne : (N : ℚ) ≠ 0 := hNpos.ne'
      field_simp

/-- C3 witness: capacity 2, draw 1/2, position 1. -/
theorem uniform_winning_position_draw_witness :
    ((1 : Int) ≤ 2) ∧
    ((0 : ℚ) ≤ 1 / 2 ∧ (1 / 2 : ℚ) < 1 ∧
      (1 ≤ Game.winningNumberDraw (1 / 2) 2 ∧ Game.winningNumberDraw (1 / 2) 2 ≤ 2)) ∧
    ((1 : Int) ≤ 1 ∧ (1 : Int) ≤ 2 ∧
      {r : ℚ | 0 ≤ r ∧ r < 1 ∧ Game.winningNumberDraw r 2 = 1} =
        Set.Ico ((((1 : Int) : ℚ) - 1) / ((2 : Int) : ℚ))
          (((1 : Int) : ℚ) / ((2 : Int) : ℚ))) := by
  refine ⟨by norm_num, ⟨by norm_num, by norm_num, ?_⟩, ⟨le_refl 1, by norm_num, ?_⟩⟩
  · exact ((uniform_winning_position_draw 2 (by norm_num)).1 (1 / 2)
      (by norm_num) (by norm_num)).1
  · exact ((uniform_winning_position_draw 2 (by norm_num)).2 1 (le_refl 1) (by norm_num)).1

/-- C10 counterexample: the join/send-path normalizer in src/Index.res
performs no 20-character truncation — a display name whose tag part is 25
word characters yields a 25-character tag. -/
theorem join_path_tag_no_truncation_cex :
    Index.extractCleanSendtagFromUser ⟨'x' :: '/' :: List.replicate 25 'a', 1⟩ =
      some (List.replicate 25 'a') ∧
    20 < (List.replicate 25 'a').length := by
  exact ⟨by decide, by decide⟩

/-- C10 amended: `Sendtag.clean`/`Sendtag.parse` satisfy the stated
contract (result within 20 characters, only `[A-Za-z0-9_]`, `none` exactly
on empty), and every successful result of the Index.res join/send
normalizer is nonempty and word-character-only — but that normalizer
applies no length cap (it can return tags longer than 20), and
`Command.cleanSendtag` rejects over-long results with `none` instead of
truncating them. -/
theorem tag_normalizer_contract :
    (∀ raw : List Char,
      (Sendtag.clean raw).length ≤ 20 ∧
      (Sendtag.clean raw).all allowedChar = true ∧
      (Sendtag.parse raw = none ↔ Sendtag.clean raw = [])) ∧
    (∀ (u : user) (t : List Char), Index.extractCleanSendtagFromUser u = some t →
      t ≠ [] ∧ t.all allowedChar = true) ∧
    (∃ (u : user) (t : List Char),
      Index.extractCleanSendtagFromUser u = some t ∧ 20 < t.length) ∧
    (∀ raw : List Char, 20 < (raw.filter allowedChar).length →
      Command.cleanSendtag raw = none) := by
  refine ⟨?_, ?_, ?_, ?_⟩
  · intro raw
    refine ⟨clean_length_le raw, clean_all_allowed raw, ?_⟩
    rw [parse_eq]
    by_cases h : Sendtag.clean raw = []
    · simp [h]
    · simp [h]
  · intro u t h
    rw [extract_eq] at h
    by_cases hc : trim ((((u.firstName.splitOn '/').get? 1).getD []).filter allowedChar) = []
    · rw [if_pos hc] at h
      exact Option.noConfusion h
    · rw [if_neg hc] at h
      have ht := Option.some.inj h
      subst ht
      refine ⟨hc, ?_⟩
      rw [List.all_eq_true]
      intro c hcm
      exact (List.mem_filter.mp (trim_subset _ hcm)).2
  · exact ⟨⟨'x' :: '/' :: List.replicate 25 'a', 1⟩, List.replicate 25 'a',
      by decide, by decide⟩
  · intro raw h
    cases hf : raw.filter allowedChar with
    | nil => rw [hf] at h; simp at h
    | cons a as =>
        rw [hf] at h
        simp only [Command.cleanSendtag, hf]
        rw [if_pos h]

/-- C10 amended witness: the contract parts applied at concrete inputs. -/
theorem tag_normalizer_contract_witness :
    ((Sendtag.clean ['a', 'b', 'c']).length ≤ 20 ∧
      (Sendtag.clean ['a', 'b', 'c']).all allowedChar = true ∧
      (Sendtag.parse ['a', 'b', 'c'] = none ↔ Sendtag.clean ['a', 'b', 'c'] = [])) ∧
    (Index.extractCleanSendtagFromUser ⟨['x', '/', 'v'], 1⟩ = some ['v'] ∧
      (['v'] : List Char) ≠ [] ∧ (['v'] : List Char).all allowedChar = true) ∧
    (20 < ((List.replicate 25 'a').filter allowedChar).length ∧
      Command.cleanSendtag (List.replicate 25 'a') = none) := by
  refine ⟨tag_normalizer_contract.1 ['a', 'b', 'c'], ⟨by decide, ?_⟩, ⟨by decide, ?_⟩⟩
  · exact tag_normalizer_contract.2.1 ⟨['x', '/', 'v'], 1⟩ ['v'] (by decide)
  · exact tag_normalizer_contract.2.2.2 (List.replicate 25 'a') (by decide)

end SendBot
